import Mathlib

/-!
# Verification of the catsa-janga checkpoint library

A shallow embedding of `src/index.ts` (class `CatsaJanga`): a checkpoint
store that serializes a caller-supplied snapshot to a single file with
`JSON.stringify(data, null, 2)`, restores it with `JSON.parse`, and a
shutdown coordinator that reacts to process termination events with a
guarded save-then-exit sequence.

The embedding models:
* JSON values (`Json`), the platform serializer `JSON.stringify(v, null, 2)`
  (`Json.stringify`) and the platform deserializer `JSON.parse`
  (`Json.parse`).  Numbers are modelled as integers (the library treats the
  snapshot as an opaque JSON-serializable value; non-integer numerals are
  outside the modelled value space and parse to failure, i.e. they count as
  corrupt content).
* The store and the process world (`Store`, `World`): the file system is a
  map from paths to contents, failure injection flags model environmental
  errors of `fs.stat`, `fs.readFile` and `fs.writeFile`, the logger is an
  append-only list of entries, and `process.exit` is recorded as an effect.
* The operations `restore`, `saveProgress`, the shared `handleExit` handler
  with its `isShuttingDown` guard, the four registered process-event
  handlers, and the static factory `createWithRestore`.

JavaScript exceptions are modelled with `Except`/`Option`: a total Lean
function models source code that never throws past its own boundary.
-/

namespace CatsaJanga

/-! ## JSON values -/

mutual

inductive Json where
  | null : Json
  | bool (b : Bool) : Json
  | num (n : Int) : Json
  | str (s : String) : Json
  | arr (elems : JsonList) : Json
  | obj (fields : JsonFields) : Json

inductive JsonList where
  | nil : JsonList
  | cons (hd : Json) (tl : JsonList) : JsonList

inductive JsonFields where
  | nil : JsonFields
  | cons (key : String) (val : Json) (tl : JsonFields) : JsonFields

end

/-- The left-brace character, U+007B. -/
def lbrace : Char := Char.ofNat 123

/-- The right-brace character, U+007D. -/
def rbrace : Char := Char.ofNat 125

/-! ## `JSON.stringify(v, null, 2)`

`JSON.stringify` with indent 2 prints arrays and objects over several
lines: a newline after the opening bracket, each item on its own line
indented by two spaces per depth, `",\n"` between items, and the closing
bracket on its own line at the enclosing depth.  Empty arrays and objects
print as `[]` and `\x7b\x7d` with no inner whitespace.  Strings are quoted
with `"` escaped as `\"`, backslash as `\\`, the control characters
backspace, tab, newline, form feed, carriage return as `\b \t \n \f \r`,
and any other control character below U+0020 as a lowercase `\u00XX`
escape; all other characters are emitted literally. -/

/-- The decimal digit character for `d < 10`. -/
def digitChar (d : Nat) : Char := Char.ofNat (48 + d)

/-- Lowercase hexadecimal digit character for `d < 16`. -/
def hexDigitChar (d : Nat) : Char :=
  if d < 10 then Char.ofNat (48 + d) else Char.ofNat (87 + d)

/-- Decimal digits of a natural number, most significant first. -/
def natChars (n : Nat) : List Char :=
  if _h : n < 10 then [digitChar n]
  else natChars (n / 10) ++ [digitChar (n % 10)]
  decreasing_by exact Nat.div_lt_self (by omega) (by omega)

/-- Decimal form of an integer as printed by `JSON.stringify`. -/
def intChars : Int → List Char
  | Int.ofNat n => natChars n
  | Int.negSucc n => '-' :: natChars (n + 1)

/-- The escape sequence `JSON.stringify` emits for one character inside a
string literal. -/
def escapeChar (c : Char) : List Char :=
  if c = '"' then ['\\', '"']
  else if c = '\\' then ['\\', '\\']
  else if c = '\x08' then ['\\', 'b']
  else if c = '\x09' then ['\\', 't']
  else if c = '\x0a' then ['\\', 'n']
  else if c = '\x0c' then ['\\', 'f']
  else if c = '\x0d' then ['\\', 'r']
  else if c.toNat < 32 then
    ['\\', 'u', '0', '0', hexDigitChar (c.toNat / 16), hexDigitChar (c.toNat % 16)]
  else [c]

/-- Escape every character of a string body. -/
def escapeList : List Char → List Char
  | [] => []
  | c :: cs => escapeChar c ++ escapeList cs

/-- A quoted JSON string literal. -/
def quoteChars (s : String) : List Char :=
  '"' :: (escapeList s.data ++ ['"'])

/-- The newline-plus-indentation separator at depth `d` (two spaces per
depth level, as produced by `JSON.stringify(v, null, 2)`). -/
def nlIndent (d : Nat) : List Char := '\n' :: List.replicate (2 * d) ' '

mutual

/-- Characters of `JSON.stringify(v, null, 2)` for a value at depth `d`. -/
def strAt : Nat → Json → List Char
  | _, .null => ['n', 'u', 'l', 'l']
  | _, .bool true => ['t', 'r', 'u', 'e']
  | _, .bool false => ['f', 'a', 'l', 's', 'e']
  | _, .num n => intChars n
  | _, .str s => quoteChars s
  | _, .arr .nil => ['[', ']']
  | d, .arr (.cons x tl) =>
    '[' :: (nlIndent (d + 1) ++ strAt (d + 1) x ++ strItemsTail (d + 1) tl
      ++ nlIndent d ++ [']'])
  | _, .obj .nil => [lbrace, rbrace]
  | d, .obj (.cons k v tl) =>
    lbrace :: (nlIndent (d + 1) ++ quoteChars k ++ [':', ' '] ++ strAt (d + 1) v
      ++ strFieldsTail (d + 1) tl ++ nlIndent d ++ [rbrace])

/-- The items of an array after the first one: `",\n<indent><item>"` each. -/
def strItemsTail : Nat → JsonList → List Char
  | _, .nil => []
  | d, .cons y tl => ',' :: (nlIndent d ++ strAt d y ++ strItemsTail d tl)

/-- The members of an object after the first one. -/
def strFieldsTail : Nat → JsonFields → List Char
  | _, .nil => []
  | d, .cons k v tl =>
    ',' :: (nlIndent d ++ quoteChars k ++ [':', ' '] ++ strAt d v ++ strFieldsTail d tl)

end

/-- `JSON.stringify(v, null, 2)`. -/
def Json.stringify (v : Json) : String := String.mk (strAt 0 v)

/-- The printed items of a non-empty array without the leading indent:
first item, then the remaining items with separators. -/
def strElemsFrom : Nat → JsonList → List Char
  | _, .nil => []
  | d, .cons x tl => strAt d x ++ strItemsTail d tl

/-- The printed members of a non-empty object without the leading indent. -/
def strFieldsFrom : Nat → JsonFields → List Char
  | _, .nil => []
  | d, .cons k v tl => quoteChars k ++ (':' :: (' ' :: (strAt d v ++ strFieldsTail d tl)))

/-! ## `JSON.parse`

A recursive-descent parser over the character list, modelling the platform
deserializer.  JSON whitespace is skipped between tokens; strings undo the
escape sequences of the serializer (including `\uXXXX`); numerals are
accepted only in integral form — fractional or exponent notation falls
outside the modelled value space and is reported as a parse failure, which
the store then treats as corrupt content.  The parser takes a fuel
argument bounding its recursion depth; `Json.parse` supplies fuel larger
than the input length, which suffices for every input the serializer can
produce. -/

/-- JSON insignificant whitespace. -/
def isWsChar (c : Char) : Bool := c = ' ' || c = '\t' || c = '\n' || c = '\r'

/-- Drop leading JSON whitespace. -/
def skipWs : List Char → List Char
  | [] => []
  | c :: cs => if isWsChar c then skipWs cs else c :: cs

/-- Numeric value of a hexadecimal digit character. -/
def hexVal (c : Char) : Option Nat :=
  if '0' ≤ c ∧ c ≤ '9' then some (c.toNat - 48)
  else if 'a' ≤ c ∧ c ≤ 'f' then some (c.toNat - 87)
  else if 'A' ≤ c ∧ c ≤ 'F' then some (c.toNat - 55)
  else none

/-- Parse the body of a string literal (after the opening quote), undoing
escape sequences, up to and including the closing quote.  Returns the
decoded characters and the remaining input.  Unescaped control characters
are rejected, as in JSON. -/
def parseStringBody : List Char → Option (List Char × List Char)
  | [] => none
  | c :: cs =>
    if c = '"' then some ([], cs)
    else if c = '\\' then
      match cs with
      | [] => none
      | e :: cs₂ =>
        if e = '"' then (parseStringBody cs₂).map fun r => ('"' :: r.1, r.2)
        else if e = '\\' then (parseStringBody cs₂).map fun r => ('\\' :: r.1, r.2)
        else if e = '/' then (parseStringBody cs₂).map fun r => ('/' :: r.1, r.2)
        else if e = 'b' then (parseStringBody cs₂).map fun r => ('\x08' :: r.1, r.2)
        else if e = 'f' then (parseStringBody cs₂).map fun r => ('\x0c' :: r.1, r.2)
        else if e = 'n' then (parseStringBody cs₂).map fun r => ('\x0a' :: r.1, r.2)
        else if e = 'r' then (parseStringBody cs₂).map fun r => ('\x0d' :: r.1, r.2)
        else if e = 't' then (parseStringBody cs₂).map fun r => ('\x09' :: r.1, r.2)
        else if e = 'u' then
          match cs₂ with
          | h1 :: h2 :: h3 :: h4 :: cs₃ =>
            match hexVal h1, hexVal h2, hexVal h3, hexVal h4 with
            | some a, some b, some c', some d =>
              (parseStringBody cs₃).map fun r =>
                (Char.ofNat (((a * 16 + b) * 16 + c') * 16 + d) :: r.1, r.2)
            | _, _, _, _ => none
          | _ => none
        else none
    else if c.toNat < 32 then none
    else (parseStringBody cs).map fun r => (c :: r.1, r.2)

/-- Split off the longest prefix of decimal digits. -/
def takeDigits : List Char → List Char × List Char
  | [] => ([], [])
  | c :: cs =>
    if c.isDigit then
      let r := takeDigits cs
      (c :: r.1, r.2)
    else ([], c :: cs)

/-- Numeric value of a decimal digit character. -/
def digitVal (c : Char) : Nat := c.toNat - 48

/-- Value of a most-significant-first digit list. -/
def digitsVal (ds : List Char) : Nat := ds.foldl (fun a c => a * 10 + digitVal c) 0

/-- `true` when the input does not continue a numeric literal: empty, or a
head that is neither a digit nor a fraction/exponent marker. -/
def numDelim : List Char → Bool
  | [] => true
  | c :: _ => !(c.isDigit || c = '.' || c = 'e' || c = 'E')

/-- Parse the digits of an unsigned integral numeral.  Fails on an empty
digit run and on a following fraction or exponent marker (non-integer
numerals are outside the modelled value space). -/
def parseNatPart (cs : List Char) : Option (Nat × List Char) :=
  let p := takeDigits cs
  if p.1 = [] then none
  else if numDelim p.2 then some (digitsVal p.1, p.2) else none

mutual

/-- Parse one JSON value after skipping leading whitespace. -/
def parseValue : Nat → List Char → Option (Json × List Char)
  | 0, _ => none
  | fuel + 1, cs =>
    match skipWs cs with
    | [] => none
    | c :: cs₂ =>
      if c = 'n' then
        match cs₂ with
        | k₁ :: k₂ :: k₃ :: rest =>
          if k₁ = 'u' ∧ k₂ = 'l' ∧ k₃ = 'l' then some (.null, rest) else none
        | _ => none
      else if c = 't' then
        match cs₂ with
        | k₁ :: k₂ :: k₃ :: rest =>
          if k₁ = 'r' ∧ k₂ = 'u' ∧ k₃ = 'e' then some (.bool true, rest) else none
        | _ => none
      else if c = 'f' then
        match cs₂ with
        | k₁ :: k₂ :: k₃ :: k₄ :: rest =>
          if k₁ = 'a' ∧ k₂ = 'l' ∧ k₃ = 's' ∧ k₄ = 'e' then some (.bool false, rest)
          else none
        | _ => none
      else if c = '"' then
        (parseStringBody cs₂).map fun r => (.str (String.mk r.1), r.2)
      else if c = '[' then
        match skipWs cs₂ with
        | [] => none
        | c₂ :: rest =>
          if c₂ = ']' then some (.arr .nil, rest)
          else (parseElems fuel (c₂ :: rest)).map fun r => (.arr r.1, r.2)
      else if c = lbrace then
        match skipWs cs₂ with
        | [] => none
        | c₂ :: rest =>
          if c₂ = rbrace then some (.obj .nil, rest)
          else (parseMembers fuel (c₂ :: rest)).map fun r => (.obj r.1, r.2)
      else if c = '-' then
        (parseNatPart cs₂).map fun r => (.num (-(r.1 : Int)), r.2)
      else if c.isDigit then
        (parseNatPart (c :: cs₂)).map fun r => (.num (r.1 : Int), r.2)
      else none

/-- Parse the elements of a non-empty array, up to and including the
closing bracket. -/
def parseElems : Nat → List Char → Option (JsonList × List Char)
  | 0, _ => none
  | fuel + 1, cs =>
    match parseValue fuel cs with
    | none => none
    | some (v, cs₂) =>
      match skipWs cs₂ with
      | [] => none
      | c :: cs₃ =>
        if c = ',' then (parseElems fuel cs₃).map fun r => (.cons v r.1, r.2)
        else if c = ']' then some (.cons v .nil, cs₃)
        else none

/-- Parse the members of a non-empty object, up to and including the
closing brace. -/
def parseMembers : Nat → List Char → Option (JsonFields × List Char)
  | 0, _ => none
  | fuel + 1, cs =>
    match skipWs cs with
    | [] => none
    | c :: cs₂ =>
      if c = '"' then
        match parseStringBody cs₂ with
        | none => none
        | some (kcs, cs₃) =>
          match skipWs cs₃ with
          | [] => none
          | c₂ :: cs₄ =>
            if c₂ = ':' then
              match parseValue fuel cs₄ with
              | none => none
              | some (v, cs₅) =>
                match skipWs cs₅ with
                | [] => none
                | c₃ :: cs₆ =>
                  if c₃ = ',' then
                    (parseMembers fuel cs₆).map fun r => (.cons (String.mk kcs) v r.1, r.2)
                  else if c₃ = rbrace then some (.cons (String.mk kcs) v .nil, cs₆)
                  else none
            else none
      else none

end

/-- `JSON.parse(s)`: parse one value and require that only whitespace
follows it. -/
def Json.parse (s : String) : Option Json :=
  match parseValue (s.data.length + 1) s.data with
  | some (v, rest) => if skipWs rest = [] then some v else none
  | none => none

/-! The recursion depth the parser needs on serializer output, used to
discharge the fuel bound in the round-trip proof. -/

mutual

/-- Fuel sufficient for `parseValue` on the printed form of `v`. -/
def jfuel : Json → Nat
  | .null => 1
  | .bool _ => 1
  | .num _ => 1
  | .str _ => 1
  | .arr xs => jfuelL xs + 1
  | .obj fs => jfuelF fs + 1

/-- Fuel sufficient for `parseElems` on printed array items. -/
def jfuelL : JsonList → Nat
  | .nil => 0
  | .cons x tl => max (jfuel x) (jfuelL tl) + 1

/-- Fuel sufficient for `parseMembers` on printed object members. -/
def jfuelF : JsonFields → Nat
  | .nil => 0
  | .cons _ v tl => max (jfuel v) (jfuelF tl) + 1

end

/-! ## The store and the process world

`Store` embeds the private fields a `CatsaJanga` instance holds after
construction: the snapshot provider `getData` (which may throw, modelled
with `Except`), the optional `initialData` (`none` models the absent
`undefined`), and the `outputFile` path.  The logger is not a field here:
its observable behaviour — the ordered entries it receives — lives in the
world.

`World` carries the state the operations read and write: the file system
(a map from paths to contents), three failure-injection flags modelling
environmental errors of `fs.stat`, `fs.readFile` and `fs.writeFile`, the
log, and the shutdown coordinator's state.  `saveCalls` counts invocations
of `saveProgress` and `exitCalls` records each `process.exit(code)` call,
in order; both are pure instrumentation used to state the coordinator's
properties. -/

inductive LogLevel where
  | info : LogLevel
  | error : LogLevel
deriving DecidableEq

structure LogEntry where
  level : LogLevel
  msg : String
deriving DecidableEq

structure Store where
  getData : Except String Json
  initialData : Option Json
  outputFile : String

structure World where
  fs : String → Option String
  statError : Bool
  readError : Bool
  writeError : Bool
  log : List LogEntry
  isShuttingDown : Bool
  saveCalls : Nat
  exitCalls : List Nat

/-- `logger.info(msg)`. -/
def logInfo (w : World) (msg : String) : World :=
  { w with log := w.log ++ [⟨LogLevel.info, msg⟩] }

/-- `logger.error(msg)`. -/
def logError (w : World) (msg : String) : World :=
  { w with log := w.log ++ [⟨LogLevel.error, msg⟩] }

/-- `!!(await fs.stat(path).catch(() => false))`: the stat promise
resolves only when no environmental error occurs and the file exists; any
rejection — including an environmental one such as permission denied — is
converted to `false` by the inline catch before the outer `try` of
`restore` can observe it. -/
def fsStatExists (w : World) (path : String) : Bool :=
  if w.statError then false else (w.fs path).isSome

/-- `fs.readFile(path, 'utf-8')`: `none` models a rejection (missing file
or environmental error). -/
def fsReadFile (w : World) (path : String) : Option String :=
  if w.readError then none else w.fs path

/-- `CatsaJanga.restore()`.  The source wraps the body in an outer
`try`/`catch` logging `Error checking file existence`; since the stat
rejection is already converted to `false` by the inline `.catch(() =>
false)` and the remaining operations are guarded by the inner
`try`/`catch`, that outer handler is unreachable in this model and has no
corresponding branch. -/
def restore (c : Store) (w : World) : Option Json × World :=
  let fileExists := fsStatExists w c.outputFile
  if fileExists = false then (c.initialData, w)
  else
    match fsReadFile w c.outputFile with
    | none => (c.initialData, logError w "Error restoring progress")
    | some content =>
      match Json.parse content with
      | some v => (some v, logInfo w "Progress data successfully restored")
      | none => (c.initialData, logError w "Error restoring progress")

/-- `CatsaJanga.saveProgress()`.  Everything is inside the `try`: the info
log, the synchronous `this.getData()` call (which may throw) and the
`fs.writeFile`.  Any failure lands in the `catch`, which logs one error;
the method always completes without throwing and returns nothing. -/
def saveProgress (c : Store) (w : World) : World :=
  let w₁ := { w with saveCalls := w.saveCalls + 1 }
  let w₂ := logInfo w₁ ("Saving progress to " ++ c.outputFile ++ "...")
  match c.getData with
  | Except.error _ => logError w₂ "Error saving progress"
  | Except.ok v =>
    if w₂.writeError then logError w₂ "Error saving progress"
    else
      { w₂ with fs := fun p => if p = c.outputFile then some (Json.stringify v) else w₂.fs p }

/-- The shared `handleExit(signal, exitCode)` closure of
`setupProcessHandlers`: the `isShuttingDown` guard is checked and set
synchronously, before the first `await`; then the cause is logged,
`saveProgress` is awaited, and `process.exit(exitCode)` is called. -/
def handleExit (c : Store) (signal : String) (exitCode : Nat) (w : World) : World :=
  if w.isShuttingDown then w
  else
    let w₁ := { w with isShuttingDown := true }
    let w₂ := logInfo w₁ ("Process " ++ signal ++ ". Saving progress...")
    let w₃ := saveProgress c w₂
    { w₃ with exitCalls := w₃.exitCalls ++ [exitCode] }

/-- The qualifying termination events the coordinator registers for. -/
inductive ProcEvent where
  | sigint : ProcEvent
  | sigterm : ProcEvent
  | uncaughtException (message : String) : ProcEvent
  | unhandledRejection (reason : String) : ProcEvent

/-- Delivery of one process event to the handlers registered by
`setupProcessHandlers`.  The two crash handlers log their cause with
`logger.error` before calling `handleExit`; the two signal handlers call
`handleExit` directly. -/
def onEvent (c : Store) (e : ProcEvent) (w : World) : World :=
  match e with
  | ProcEvent.sigint => handleExit c "interrupted (SIGINT)" 0 w
  | ProcEvent.sigterm => handleExit c "terminated (SIGTERM)" 0 w
  | ProcEvent.uncaughtException m =>
    handleExit c "crashed with uncaught exception" 1 (logError w ("Uncaught exception: " ++ m))
  | ProcEvent.unhandledRejection m =>
    handleExit c "crashed with unhandled rejection" 1
      (logError w ("Unhandled promise rejection: " ++ m))

/-- The process exit status the registered handler passes for each event:
`0` for the termination signals, `1` for the crash notifications. -/
def exitCodeOf : ProcEvent → Nat
  | ProcEvent.sigint => 0
  | ProcEvent.sigterm => 0
  | ProcEvent.uncaughtException _ => 1
  | ProcEvent.unhandledRejection _ => 1

/-- `CatsaJanga.createWithRestore(options)` (static factory): construct the
store from the options, call `restore`, and return the store together with
`restoredData !== undefined ? restoredData : options.initialData`. -/
def createWithRestore (opts : Store) (w : World) : (Store × Option Json) × World :=
  let saver := opts
  let r := restore saver w
  let data := match r.1 with
    | some v => some v
    | none => opts.initialData
  ((saver, data), r.2)

/-! ## Concrete instances used by witnesses and counterexamples -/

/-- A store whose provider yields `idle snapshot`, with initial data `7`. -/
def exStore : Store :=
  { getData := Except.ok (Json.num 7)
    initialData := some (Json.num 7)
    outputFile := "progress.json" }

/-- A fully healthy world with an empty file system and empty log. -/
def exWorld : World :=
  { fs := fun _ => none
    statError := false
    readError := false
    writeError := false
    log := []
    isShuttingDown := false
    saveCalls := 0
    exitCalls := [] }

/-- A world whose checkpoint file holds the spec's corrupt fixture
`\x7b this is not valid JSON \x7d`. -/
def corruptWorld : World :=
  { exWorld with
      fs := fun p => if p = "progress.json" then some (String.mk
        (lbrace :: " this is not valid JSON ".data ++ [rbrace])) else none }

/-- A world whose checkpoint file holds a valid serialized snapshot. -/
def savedWorld : World :=
  { exWorld with
      fs := fun p => if p = "progress.json" then some (Json.stringify (Json.num 42)) else none }

/-- `savedWorld` with an environmental failure injected into `fs.stat`:
the checkpoint file exists and holds valid content, but the existence
check rejects (e.g. permission denied). -/
def statFailWorld : World := { savedWorld with statError := true }

/-- The end-to-end fixture snapshot of the test-suite and of §8 of the
design: `\x7b "items": [1, 2, 3], "value": "test" \x7d`. -/
def roundVal : Json :=
  Json.obj (JsonFields.cons "items"
    (Json.arr (JsonList.cons (Json.num 1) (JsonList.cons (Json.num 2)
      (JsonList.cons (Json.num 3) JsonList.nil))))
    (JsonFields.cons "value" (Json.str "test") JsonFields.nil))

/-- A store whose provider yields `roundVal`. -/
def roundStore : Store :=
  { getData := Except.ok roundVal
    initialData := none
    outputFile := "progress.json" }

/-! ## Whitespace facts -/

theorem skipWs_append_ws {pre : List Char} (cs : List Char)
    (h : ∀ c ∈ pre, isWsChar c = true) : skipWs (pre ++ cs) = skipWs cs := by
  induction pre with
  | nil => rfl
  | cons p ps ih =>
    have hp : isWsChar p = true := h p (by simp)
    simp only [List.cons_append, skipWs, hp, if_true]
    exact ih fun c hc => h c (by simp [hc])

theorem skipWs_cons_of_not {c : Char} (cs : List Char) (h : isWsChar c = false) :
    skipWs (c :: cs) = c :: cs := by
  simp [skipWs, h]

theorem nlIndent_all_ws (d : Nat) : ∀ c ∈ nlIndent d, isWsChar c = true := by
  intro c hc
  rcases List.mem_cons.mp hc with rfl | hmem
  · rfl
  · rw [List.eq_of_mem_replicate hmem]
    rfl

/-! ## Digit facts -/

theorem digitChar_props : ∀ k, k < 10 →
    (digitChar k).isDigit = true ∧ isWsChar (digitChar k) = false ∧
    digitVal (digitChar k) = k ∧
    digitChar k ≠ 'n' ∧ digitChar k ≠ 't' ∧ digitChar k ≠ 'f' ∧
    digitChar k ≠ '"' ∧ digitChar k ≠ '[' ∧ digitChar k ≠ lbrace ∧
    digitChar k ≠ '-' ∧ digitChar k ≠ ']' := by decide

theorem natChars_ne_nil (n : Nat) : natChars n ≠ [] := by
  unfold natChars
  split
  · simp
  · simp

theorem natChars_mem (n : Nat) : ∀ c ∈ natChars n, ∃ k, k < 10 ∧ c = digitChar k := by
  induction n using Nat.strong_induction_on with
  | _ n ih =>
    intro c hc
    unfold natChars at hc
    split at hc
    · next h => exact ⟨n, h, by simpa using hc⟩
    · next h =>
      rcases List.mem_append.mp hc with h₁ | h₂
      · exact ih (n / 10) (Nat.div_lt_self (by omega) (by omega)) c h₁
      · exact ⟨n % 10, Nat.mod_lt _ (by omega), by simpa using h₂⟩

theorem digitsVal_append_singleton (xs : List Char) (c : Char) :
    digitsVal (xs ++ [c]) = digitsVal xs * 10 + digitVal c := by
  simp [digitsVal, List.foldl_append]

theorem digitsVal_natChars (n : Nat) : digitsVal (natChars n) = n := by
  induction n using Nat.strong_induction_on with
  | _ n ih =>
    unfold natChars
    split
    · next h => simp [digitsVal, (digitChar_props n h).2.2.1]
    · next h =>
      rw [digitsVal_append_singleton,
        ih (n / 10) (Nat.div_lt_self (by omega) (by omega)),
        (digitChar_props (n % 10) (Nat.mod_lt _ (by omega))).2.2.1]
      omega

theorem takeDigits_append (ds rest : List Char)
    (hall : ∀ c ∈ ds, c.isDigit = true) (hrest : numDelim rest = true) :
    takeDigits (ds ++ rest) = (ds, rest) := by
  induction ds with
  | nil =>
    cases rest with
    | nil => rfl
    | cons r rs =>
      have : r.isDigit = false := by
        simp [numDelim] at hrest
        exact hrest.1.1.1
      simp [takeDigits, this]
  | cons d ds ih =>
    have hd : d.isDigit = true := hall d (by simp)
    simp only [List.cons_append, takeDigits, hd, if_true]
    rw [show ds.append rest = ds ++ rest from rfl, ih fun c hc => hall c (by simp [hc])]

theorem parseNatPart_natChars (n : Nat) (rest : List Char)
    (hrest : numDelim rest = true) :
    parseNatPart (natChars n ++ rest) = some (n, rest) := by
  unfold parseNatPart
  rw [takeDigits_append (natChars n) rest
    (fun c hc => by
      obtain ⟨k, hk, rfl⟩ := natChars_mem n c hc
      exact (digitChar_props k hk).1)
    hrest]
  simp [natChars_ne_nil n, hrest, digitsVal_natChars]

/-! ## String escape facts -/

theorem hexVal_hexDigitChar : ∀ k, k < 16 → hexVal (hexDigitChar k) = some k := by decide

theorem psb_quote (xs : List Char) : parseStringBody ('"' :: xs) = some ([], xs) := by
  conv_lhs => rw [parseStringBody.eq_def]
  simp

theorem psb_esc_quote (xs : List Char) :
    parseStringBody ('\\' :: '"' :: xs)
      = (parseStringBody xs).map fun r => ('"' :: r.1, r.2) := by
  conv_lhs => rw [parseStringBody.eq_def]
  simp

theorem psb_esc_backslash (xs : List Char) :
    parseStringBody ('\\' :: '\\' :: xs)
      = (parseStringBody xs).map fun r => ('\\' :: r.1, r.2) := by
  conv_lhs => rw [parseStringBody.eq_def]
  simp

theorem psb_esc_b (xs : List Char) :
    parseStringBody ('\\' :: 'b' :: xs)
      = (parseStringBody xs).map fun r => ('\x08' :: r.1, r.2) := by
  conv_lhs => rw [parseStringBody.eq_def]
  simp

theorem psb_esc_t (xs : List Char) :
    parseStringBody ('\\' :: 't' :: xs)
      = (parseStringBody xs).map fun r => ('\x09' :: r.1, r.2) := by
  conv_lhs => rw [parseStringBody.eq_def]
  simp

theorem psb_esc_n (xs : List Char) :
    parseStringBody ('\\' :: 'n' :: xs)
      = (parseStringBody xs).map fun r => ('\x0a' :: r.1, r.2) := by
  conv_lhs => rw [parseStringBody.eq_def]
  simp

theorem psb_esc_f (xs : List Char) :
    parseStringBody ('\\' :: 'f' :: xs)
      = (parseStringBody xs).map fun r => ('\x0c' :: r.1, r.2) := by
  conv_lhs => rw [parseStringBody.eq_def]
  simp

theorem psb_esc_r (xs : List Char) :
    parseStringBody ('\\' :: 'r' :: xs)
      = (parseStringBody xs).map fun r => ('\x0d' :: r.1, r.2) := by
  conv_lhs => rw [parseStringBody.eq_def]
  simp

theorem psb_esc_u (h1 h2 h3 h4 : Char) (xs : List Char) :
    parseStringBody ('\\' :: 'u' :: h1 :: h2 :: h3 :: h4 :: xs)
      = match hexVal h1, hexVal h2, hexVal h3, hexVal h4 with
        | some a, some b, some c', some d =>
          (parseStringBody xs).map fun r =>
            (Char.ofNat (((a * 16 + b) * 16 + c') * 16 + d) :: r.1, r.2)
        | _, _, _, _ => none := by
  conv_lhs => rw [parseStringBody.eq_def]
  simp

theorem psb_lit (c : Char) (xs : List Char) (h1 : ¬ c = '"') (h2 : ¬ c = '\\')
    (h3 : ¬ c.toNat < 32) :
    parseStringBody (c :: xs) = (parseStringBody xs).map fun r => (c :: r.1, r.2) := by
  conv_lhs => rw [parseStringBody.eq_def]
  simp [h1, h2, h3]

theorem parseStringBody_escapeList (cs rest : List Char) :
    parseStringBody (escapeList cs ++ '"' :: rest) = some (cs, rest) := by
  induction cs with
  | nil => exact psb_quote rest
  | cons c cs ih =>
    rw [show escapeList (c :: cs) = escapeChar c ++ escapeList cs from rfl,
      List.append_assoc]
    unfold escapeChar
    by_cases h1 : c = '"'
    · subst h1
      simp only [if_true, List.cons_append, List.nil_append, psb_esc_quote, ih,
        Option.map_some']
    · rw [if_neg h1]
      by_cases h2 : c = '\\'
      · subst h2
        simp only [if_true, List.cons_append, List.nil_append, psb_esc_backslash, ih,
          Option.map_some']
      · rw [if_neg h2]
        by_cases h3 : c = '\x08'
        · subst h3
          simp only [if_true, List.cons_append, List.nil_append, psb_esc_b, ih,
            Option.map_some']
        · rw [if_neg h3]
          by_cases h4 : c = '\x09'
          · subst h4
            simp only [if_true, List.cons_append, List.nil_append, psb_esc_t, ih,
              Option.map_some']
          · rw [if_neg h4]
            by_cases h5 : c = '\x0a'
            · subst h5
              simp only [if_true, List.cons_append, List.nil_append, psb_esc_n, ih,
                Option.map_some']
            · rw [if_neg h5]
              by_cases h6 : c = '\x0c'
              · subst h6
                simp only [if_true, List.cons_append, List.nil_append, psb_esc_f, ih,
                  Option.map_some']
              · rw [if_neg h6]
                by_cases h7 : c = '\x0d'
                · subst h7
                  simp only [if_true, List.cons_append, List.nil_append, psb_esc_r, ih,
                    Option.map_some']
                · rw [if_neg h7]
                  by_cases h8 : c.toNat < 32
                  · rw [if_pos h8]
                    simp only [List.cons_append, List.nil_append, psb_esc_u]
                    rw [show hexVal '0' = some 0 from by decide,
                      hexVal_hexDigitChar (c.toNat / 16) (by omega),
                      hexVal_hexDigitChar (c.toNat % 16) (by omega), ih]
                    dsimp only
                    rw [show ((0 * 16 + 0) * 16 + c.toNat / 16) * 16 + c.toNat % 16 = c.toNat
                      from by omega, Char.ofNat_toNat]
                    rfl
                  · rw [if_neg h8]
                    show parseStringBody (c :: (escapeList cs ++ '"' :: rest)) = _
                    rw [psb_lit c _ h1 h2 h8, ih]
                    rfl

/-! ## The leading character of a printed value -/

theorem jfuel_pos (v : Json) : 1 ≤ jfuel v := by
  cases v <;> simp [jfuel]

theorem strAt_head (d : Nat) (v : Json) :
    ∃ c t, strAt d v = c :: t ∧ isWsChar c = false ∧ c ≠ ']' := by
  cases v with
  | null => exact ⟨'n', _, rfl, by decide, by decide⟩
  | bool b =>
    cases b
    · exact ⟨'f', _, rfl, by decide, by decide⟩
    · exact ⟨'t', _, rfl, by decide, by decide⟩
  | num n =>
    cases n with
    | ofNat m =>
      obtain ⟨c, t, hct⟩ := List.exists_cons_of_ne_nil (natChars_ne_nil m)
      have hmem : c ∈ natChars m := by rw [hct]; exact List.mem_cons_self c t
      obtain ⟨k, hk, rfl⟩ := natChars_mem m c hmem
      have props := digitChar_props k hk
      exact ⟨digitChar k, t, by simpa [strAt, intChars] using hct,
        props.2.1, props.2.2.2.2.2.2.2.2.2.2⟩
    | negSucc m =>
      exact ⟨'-', natChars (m + 1), by simp [strAt, intChars], by decide, by decide⟩
  | str s => exact ⟨'"', _, rfl, by decide, by decide⟩
  | arr xs =>
    cases xs
    · exact ⟨'[', _, rfl, by decide, by decide⟩
    · exact ⟨'[', _, rfl, by decide, by decide⟩
  | obj fs =>
    cases fs
    · exact ⟨lbrace, _, rfl, by decide, by decide⟩
    · exact ⟨lbrace, _, rfl, by decide, by decide⟩

/-! ## The parser fuel needed on printed output is below its length -/

mutual

theorem jfuel_le (d : Nat) (v : Json) : jfuel v ≤ (strAt d v).length := by
  cases v with
  | null => simp [jfuel, strAt]
  | bool b => cases b <;> simp [jfuel, strAt]
  | num n =>
    cases n with
    | ofNat m =>
      have := List.length_pos.mpr (natChars_ne_nil m)
      simp only [jfuel, strAt, intChars]
      omega
    | negSucc m => simp [jfuel, strAt, intChars]
  | str s => simp [jfuel, strAt, quoteChars]
  | arr xs =>
    cases xs with
    | nil => simp [jfuel, jfuelL, strAt]
    | cons x tl =>
      have hx := jfuel_le (d + 1) x
      have htl := jfuelL_le (d + 1) tl
      simp only [jfuel, jfuelL, strAt, List.length_cons, List.length_append]
      omega
  | obj fs =>
    cases fs with
    | nil => simp [jfuel, jfuelF, strAt]
    | cons k v tl =>
      have hv := jfuel_le (d + 1) v
      have htl := jfuelF_le (d + 1) tl
      simp only [jfuel, jfuelF, strAt, List.length_cons, List.length_append]
      omega

theorem jfuelL_le (d : Nat) (tl : JsonList) : jfuelL tl ≤ (strItemsTail d tl).length := by
  cases tl with
  | nil => simp [jfuelL, strItemsTail]
  | cons y tl₂ =>
    have hy := jfuel_le d y
    have htl := jfuelL_le d tl₂
    simp only [jfuelL, strItemsTail, List.length_cons, List.length_append, nlIndent,
      List.length_replicate]
    omega

theorem jfuelF_le (d : Nat) (tl : JsonFields) : jfuelF tl ≤ (strFieldsTail d tl).length := by
  cases tl with
  | nil => simp [jfuelF, strFieldsTail]
  | cons k v tl₂ =>
    have hv := jfuel_le d v
    have htl := jfuelF_le d tl₂
    simp only [jfuelF, strFieldsTail, List.length_cons, List.length_append, nlIndent,
      List.length_replicate]
    omega

end

/-! ## Round trip: the parser inverts the serializer -/

theorem numDelim_items (d d₀ : Nat) (tl : JsonList) (rest : List Char) :
    numDelim (strItemsTail d tl ++ (nlIndent d₀ ++ ']' :: rest)) = true := by
  cases tl
  · simp [strItemsTail, nlIndent, numDelim]
  · simp [strItemsTail, numDelim]

theorem numDelim_fields (d d₀ : Nat) (tl : JsonFields) (rest : List Char) :
    numDelim (strFieldsTail d tl ++ (nlIndent d₀ ++ rbrace :: rest)) = true := by
  cases tl
  · simp [strFieldsTail, nlIndent, numDelim]
  · simp [strFieldsTail, numDelim]

theorem numDelim_nlIndent (d : Nat) (xs : List Char) :
    numDelim (nlIndent d ++ xs) = true := by
  simp [nlIndent, numDelim]

theorem numDelim_comma (xs : List Char) : numDelim (',' :: xs) = true := by
  simp [numDelim]

mutual

theorem parseValue_print (v : Json) (fuel : Nat) (pre rest : List Char) (d : Nat)
    (hfuel : jfuel v ≤ fuel) (hpre : ∀ c ∈ pre, isWsChar c = true)
    (hrest : numDelim rest = true) :
    parseValue fuel (pre ++ (strAt d v ++ rest)) = some (v, rest) := by
  obtain ⟨f, rfl⟩ : ∃ f, fuel = f + 1 := ⟨fuel - 1, by have := jfuel_pos v; omega⟩
  cases v with
  | null =>
    rw [parseValue]
    simp only [strAt, List.cons_append, List.nil_append]
    rw [skipWs_append_ws _ hpre, skipWs_cons_of_not _ (by decide)]
    simp
  | bool b =>
    cases b <;>
      (rw [parseValue]
       simp only [strAt, List.cons_append, List.nil_append]
       rw [skipWs_append_ws _ hpre, skipWs_cons_of_not _ (by decide)]
       simp)
  | num n =>
    cases n with
    | ofNat m =>
      obtain ⟨c, t, hct⟩ := List.exists_cons_of_ne_nil (natChars_ne_nil m)
      have hmem : c ∈ natChars m := by rw [hct]; exact List.mem_cons_self c t
      obtain ⟨k, hk, rfl⟩ := natChars_mem m c hmem
      obtain ⟨hdig, hws, hval, hn, ht, hf, hq, hlb, hbrace, hminus, hrb⟩ :=
        digitChar_props k hk
      rw [parseValue]
      simp only [strAt, intChars, hct, List.cons_append]
      rw [skipWs_append_ws _ hpre, skipWs_cons_of_not _ hws]
      have hsplit : digitChar k :: (t ++ rest) = natChars m ++ rest := by
        rw [hct, List.cons_append]
      simp [hn, ht, hf, hq, hlb, hbrace, hminus, hdig, hsplit,
        parseNatPart_natChars m rest hrest]
    | negSucc m =>
      rw [parseValue]
      simp only [strAt, intChars, List.cons_append]
      rw [skipWs_append_ws _ hpre, skipWs_cons_of_not _ (by decide)]
      rw [show Int.negSucc m = -(((m + 1 : Nat) : Int)) from by
        rw [Int.negSucc_eq]; push_cast; ring]
      simp [show ('-' : Char) ≠ lbrace from by decide,
        parseNatPart_natChars (m + 1) rest hrest]
  | str s =>
    rw [parseValue]
    simp only [strAt, quoteChars, List.cons_append, List.append_assoc, List.nil_append]
    rw [skipWs_append_ws _ hpre, skipWs_cons_of_not _ (by decide)]
    have hmk : String.mk s.data = s := rfl
    simp [parseStringBody_escapeList, hmk]
  | arr xs =>
    cases xs with
    | nil =>
      rw [parseValue]
      simp only [strAt, List.cons_append, List.nil_append]
      rw [skipWs_append_ws _ hpre, skipWs_cons_of_not _ (by decide)]
      dsimp only
      rw [skipWs_cons_of_not _ (by decide)]
      simp
    | cons x tl =>
      have hL : jfuelL (JsonList.cons x tl) ≤ f := by
        simp only [jfuel] at hfuel; omega
      obtain ⟨c₀, t₀, hh, hws0, hne0⟩ := strAt_head (d + 1) x
      rw [parseValue]
      simp only [strAt, List.cons_append, List.append_assoc, List.nil_append]
      rw [skipWs_append_ws _ hpre, skipWs_cons_of_not _ (by decide)]
      dsimp only
      rw [skipWs_append_ws _ (nlIndent_all_ws (d + 1)), hh, List.cons_append,
        skipWs_cons_of_not _ hws0]
      dsimp only
      rw [show c₀ :: (t₀ ++ (strItemsTail (d + 1) tl ++ (nlIndent d ++ (']' :: rest))))
          = strAt (d + 1) x ++ (strItemsTail (d + 1) tl ++ (nlIndent d ++ (']' :: rest)))
        from by rw [hh]; rfl]
      have happ := parseElems_print (JsonList.cons x tl) f [] rest (d + 1) d
        (by simp) hL (by simp)
      simp only [strElemsFrom, List.append_assoc, List.nil_append] at happ
      rw [happ]
      simp [hne0]
  | obj fs =>
    cases fs with
    | nil =>
      rw [parseValue]
      simp only [strAt, List.cons_append, List.nil_append]
      rw [skipWs_append_ws _ hpre, skipWs_cons_of_not _
        (show isWsChar lbrace = false from by decide)]
      dsimp only
      rw [skipWs_cons_of_not _ (show isWsChar rbrace = false from by decide)]
      simp [show (lbrace ≠ 'n') from by decide, show (lbrace ≠ 't') from by decide,
        show (lbrace ≠ 'f') from by decide, show (lbrace ≠ '"') from by decide,
        show (lbrace ≠ '[') from by decide]
    | cons k v tl =>
      have hF : jfuelF (JsonFields.cons k v tl) ≤ f := by
        simp only [jfuel] at hfuel; omega
      rw [parseValue]
      simp only [strAt, quoteChars, List.cons_append, List.append_assoc, List.nil_append]
      rw [skipWs_append_ws _ hpre, skipWs_cons_of_not _
        (show isWsChar lbrace = false from by decide)]
      dsimp only
      rw [skipWs_append_ws _ (nlIndent_all_ws (d + 1)), skipWs_cons_of_not _ (by decide)]
      dsimp only
      rw [show ('"' :: (escapeList k.data ++ ('"' :: (':' :: (' ' :: (strAt (d + 1) v
              ++ (strFieldsTail (d + 1) tl ++ (nlIndent d ++ (rbrace :: rest)))))))))
          = quoteChars k ++ (':' :: (' ' :: (strAt (d + 1) v
              ++ (strFieldsTail (d + 1) tl ++ (nlIndent d ++ rbrace :: rest)))))
        from by simp [quoteChars]]
      have happ := parseMembers_print (JsonFields.cons k v tl) f [] rest (d + 1) d
        (by simp) hF (by simp)
      simp only [strFieldsFrom, List.append_assoc, List.cons_append,
        List.nil_append] at happ
      rw [happ]
      simp [show (lbrace ≠ 'n') from by decide, show (lbrace ≠ 't') from by decide,
        show (lbrace ≠ 'f') from by decide, show (lbrace ≠ '"') from by decide,
        show (lbrace ≠ '[') from by decide, show ('"' : Char) ≠ rbrace from by decide]

theorem parseElems_print (xs : JsonList) (fuel : Nat) (pre rest : List Char)
    (d d₀ : Nat) (hne : xs ≠ JsonList.nil) (hfuel : jfuelL xs ≤ fuel)
    (hpre : ∀ c ∈ pre, isWsChar c = true) :
    parseElems fuel (pre ++ (strElemsFrom d xs ++ (nlIndent d₀ ++ ']' :: rest)))
      = some (xs, rest) := by
  cases xs with
  | nil => exact absurd rfl hne
  | cons x tl =>
    obtain ⟨f, rfl⟩ : ∃ f, fuel = f + 1 := ⟨fuel - 1, by simp [jfuelL] at hfuel; omega⟩
    have hx : jfuel x ≤ f := by simp [jfuelL] at hfuel; omega
    cases tl with
    | nil =>
      simp only [strElemsFrom, strItemsTail, List.append_nil]
      rw [parseElems]
      rw [parseValue_print x f pre (nlIndent d₀ ++ ']' :: rest) d hx hpre
        (numDelim_nlIndent d₀ _)]
      dsimp only
      rw [skipWs_append_ws _ (nlIndent_all_ws d₀), skipWs_cons_of_not _ (by decide)]
      simp
    | cons y tl₂ =>
      have hy : jfuelL (JsonList.cons y tl₂) ≤ f := by
        simp [jfuelL] at hfuel ⊢; omega
      simp only [strElemsFrom, strItemsTail, List.cons_append, List.append_assoc]
      rw [parseElems]
      rw [parseValue_print x f pre
        (',' :: (nlIndent d ++ (strAt d y ++ (strItemsTail d tl₂
          ++ (nlIndent d₀ ++ ']' :: rest))))) d hx hpre (numDelim_comma _)]
      dsimp only
      rw [skipWs_cons_of_not _ (by decide)]
      dsimp only
      have happ := parseElems_print (JsonList.cons y tl₂) f (nlIndent d) rest d d₀
        (by simp) hy (nlIndent_all_ws d)
      simp only [strElemsFrom, List.append_assoc] at happ
      rw [happ]
      simp

theorem parseMembers_print (fs : JsonFields) (fuel : Nat) (pre rest : List Char)
    (d d₀ : Nat) (hne : fs ≠ JsonFields.nil) (hfuel : jfuelF fs ≤ fuel)
    (hpre : ∀ c ∈ pre, isWsChar c = true) :
    parseMembers fuel (pre ++ (strFieldsFrom d fs ++ (nlIndent d₀ ++ rbrace :: rest)))
      = some (fs, rest) := by
  cases fs with
  | nil => exact absurd rfl hne
  | cons k v tl =>
    obtain ⟨f, rfl⟩ : ∃ f, fuel = f + 1 := ⟨fuel - 1, by simp [jfuelF] at hfuel; omega⟩
    have hv : jfuel v ≤ f := by simp [jfuelF] at hfuel; omega
    have hmk : String.mk k.data = k := rfl
    cases tl with
    | nil =>
      simp only [strFieldsFrom, strFieldsTail, List.append_nil, quoteChars,
        List.cons_append, List.append_assoc, List.nil_append]
      rw [parseMembers]
      rw [skipWs_append_ws _ hpre, skipWs_cons_of_not _ (by decide)]
      dsimp only
      rw [parseStringBody_escapeList]
      dsimp only
      rw [skipWs_cons_of_not _ (by decide)]
      dsimp only
      rw [show (' ' :: (strAt d v ++ (nlIndent d₀ ++ rbrace :: rest)))
          = [' '] ++ (strAt d v ++ (nlIndent d₀ ++ rbrace :: rest)) from rfl]
      rw [parseValue_print v f [' '] (nlIndent d₀ ++ rbrace :: rest) d hv (by decide)
        (numDelim_nlIndent d₀ _)]
      dsimp only
      rw [skipWs_append_ws _ (nlIndent_all_ws d₀), skipWs_cons_of_not _
        (show isWsChar rbrace = false from by decide)]
      simp [hmk, show rbrace ≠ ',' from by decide]
    | cons k₂ v₂ tl₂ =>
      have h₂ : jfuelF (JsonFields.cons k₂ v₂ tl₂) ≤ f := by
        simp [jfuelF] at hfuel ⊢; omega
      simp only [strFieldsFrom, strFieldsTail, List.cons_append, List.append_assoc,
        quoteChars, List.nil_append]
      rw [parseMembers]
      rw [skipWs_append_ws _ hpre, skipWs_cons_of_not _ (by decide)]
      dsimp only
      rw [parseStringBody_escapeList]
      dsimp only
      rw [skipWs_cons_of_not _ (by decide)]
      dsimp only
      rw [show (' ' :: (strAt d v ++ (',' :: (nlIndent d ++ ('"' :: (escapeList k₂.data
              ++ ('"' :: (':' :: (' ' :: (strAt d v₂ ++ (strFieldsTail d tl₂
              ++ (nlIndent d₀ ++ rbrace :: rest))))))))))))
          = [' '] ++ (strAt d v ++ (',' :: (nlIndent d ++ ('"' :: (escapeList k₂.data
              ++ ('"' :: (':' :: (' ' :: (strAt d v₂ ++ (strFieldsTail d tl₂
              ++ (nlIndent d₀ ++ rbrace :: rest)))))))))))
        from rfl]
      rw [parseValue_print v f [' ']
        (',' :: (nlIndent d ++ ('"' :: (escapeList k₂.data ++ ('"' :: (':' :: (' '
          :: (strAt d v₂ ++ (strFieldsTail d tl₂ ++ (nlIndent d₀ ++ rbrace :: rest)))))))))) d
        hv (by decide) (numDelim_comma _)]
      dsimp only
      rw [skipWs_cons_of_not _ (by decide)]
      dsimp only
      have happ := parseMembers_print (JsonFields.cons k₂ v₂ tl₂) f (nlIndent d) rest d d₀
        (by simp) h₂ (nlIndent_all_ws d)
      simp only [strFieldsFrom, quoteChars, List.cons_append, List.append_assoc,
        List.nil_append] at happ
      rw [happ]
      simp [hmk, show (',' : Char) ≠ rbrace from by decide]

end

/-- Serialization followed by deserialization is the identity: the
platform codec pair round-trips every modelled JSON value. -/
theorem Json.parse_stringify (v : Json) : Json.parse (Json.stringify v) = some v := by
  unfold Json.parse Json.stringify
  have h := parseValue_print v ((strAt 0 v).length + 1) [] [] 0
    (le_trans (jfuel_le 0 v) (by omega)) (by simp) rfl
  simp only [List.nil_append, List.append_nil] at h
  rw [show (String.mk (strAt 0 v)).data = strAt 0 v from rfl, h]
  rfl

/-! ## Basic facts about the operations -/

theorem saveProgress_saveCalls (c : Store) (w : World) :
    (saveProgress c w).saveCalls = w.saveCalls + 1 := by
  unfold saveProgress
  cases c.getData
  · simp [logInfo, logError]
  · simp only [logInfo, logError]
    split <;> simp

theorem saveProgress_exitCalls (c : Store) (w : World) :
    (saveProgress c w).exitCalls = w.exitCalls := by
  unfold saveProgress
  cases c.getData
  · simp [logInfo, logError]
  · simp only [logInfo, logError]
    split <;> simp

theorem saveProgress_isShuttingDown (c : Store) (w : World) :
    (saveProgress c w).isShuttingDown = w.isShuttingDown := by
  unfold saveProgress
  cases c.getData
  · simp [logInfo, logError]
  · simp only [logInfo, logError]
    split <;> simp

theorem handleExit_of_shuttingDown (c : Store) (s : String) (k : Nat) (w : World)
    (h : w.isShuttingDown = true) : handleExit c s k w = w := by
  simp [handleExit, h]

theorem handleExit_saveCalls (c : Store) (s : String) (k : Nat) (w : World)
    (h : w.isShuttingDown = false) :
    (handleExit c s k w).saveCalls = w.saveCalls + 1 := by
  simp [handleExit, h, saveProgress_saveCalls, logInfo]

theorem handleExit_exitCalls (c : Store) (s : String) (k : Nat) (w : World)
    (h : w.isShuttingDown = false) :
    (handleExit c s k w).exitCalls = w.exitCalls ++ [k] := by
  simp [handleExit, h, saveProgress_exitCalls, logInfo]

theorem handleExit_shutsDown (c : Store) (s : String) (k : Nat) (w : World)
    (h : w.isShuttingDown = false) :
    (handleExit c s k w).isShuttingDown = true := by
  simp [handleExit, h, saveProgress_isShuttingDown, logInfo]

theorem onEvent_saveCalls (c : Store) (e : ProcEvent) (w : World)
    (h : w.isShuttingDown = false) :
    (onEvent c e w).saveCalls = w.saveCalls + 1 := by
  cases e <;> simp [onEvent, logError] <;>
    rw [handleExit_saveCalls] <;> simp [logError, h]

theorem onEvent_exitCalls (c : Store) (e : ProcEvent) (w : World)
    (h : w.isShuttingDown = false) :
    (onEvent c e w).exitCalls = w.exitCalls ++ [exitCodeOf e] := by
  cases e <;> simp [onEvent, logError, exitCodeOf] <;>
    rw [handleExit_exitCalls] <;> simp [logError, h]

theorem onEvent_shutsDown (c : Store) (e : ProcEvent) (w : World)
    (h : w.isShuttingDown = false) :
    (onEvent c e w).isShuttingDown = true := by
  cases e <;> simp [onEvent, logError] <;>
    rw [handleExit_shutsDown] <;> simp [logError, h]

theorem onEvent_blocked_saveCalls (c : Store) (e : ProcEvent) (w : World)
    (h : w.isShuttingDown = true) :
    (onEvent c e w).saveCalls = w.saveCalls := by
  cases e <;> simp [onEvent, logError] <;>
    rw [handleExit_of_shuttingDown] <;> simp [logError, h]

theorem onEvent_blocked_exitCalls (c : Store) (e : ProcEvent) (w : World)
    (h : w.isShuttingDown = true) :
    (onEvent c e w).exitCalls = w.exitCalls := by
  cases e <;> simp [onEvent, logError] <;>
    rw [handleExit_of_shuttingDown] <;> simp [logError, h]

theorem restore_fst_none {c : Store} {w : World} (h : (restore c w).1 = none) :
    c.initialData = none := by
  unfold restore at h
  dsimp only at h
  split at h
  · exact h
  · split at h
    · exact h
    · split at h
      · simp at h
      · exact h

/-! ## Claims about the shutdown coordinator -/

/-- C2: delivering two qualifying termination events to a coordinator that
is not yet shutting down triggers exactly one `saveProgress` invocation
and exactly one `process.exit` call (with the first event's status); the
second event changes neither count, because `handleExit` checks and sets
the `isShuttingDown` guard synchronously before its first `await`. -/
theorem shutdown_guard_idempotent (c : Store) (e₁ e₂ : ProcEvent) (w : World)
    (h : w.isShuttingDown = false) :
    (onEvent c e₂ (onEvent c e₁ w)).saveCalls = w.saveCalls + 1 ∧
    (onEvent c e₂ (onEvent c e₁ w)).exitCalls = w.exitCalls ++ [exitCodeOf e₁] ∧
    (onEvent c e₂ (onEvent c e₁ w)).saveCalls = (onEvent c e₁ w).saveCalls ∧
    (onEvent c e₂ (onEvent c e₁ w)).exitCalls = (onEvent c e₁ w).exitCalls := by
  have hdown := onEvent_shutsDown c e₁ w h
  refine ⟨?_, ?_, ?_, ?_⟩
  · rw [onEvent_blocked_saveCalls c e₂ _ hdown, onEvent_saveCalls c e₁ w h]
  · rw [onEvent_blocked_exitCalls c e₂ _ hdown, onEvent_exitCalls c e₁ w h]
  · exact onEvent_blocked_saveCalls c e₂ _ hdown
  · exact onEvent_blocked_exitCalls c e₂ _ hdown

/-- Witness for C2: two SIGINT deliveries to a fresh coordinator. -/
theorem shutdown_guard_idempotent_witness :
    exWorld.isShuttingDown = false ∧
    ((onEvent exStore ProcEvent.sigint (onEvent exStore ProcEvent.sigint exWorld)).saveCalls
        = exWorld.saveCalls + 1 ∧
      (onEvent exStore ProcEvent.sigint (onEvent exStore ProcEvent.sigint exWorld)).exitCalls
        = exWorld.exitCalls ++ [exitCodeOf ProcEvent.sigint] ∧
      (onEvent exStore ProcEvent.sigint (onEvent exStore ProcEvent.sigint exWorld)).saveCalls
        = (onEvent exStore ProcEvent.sigint exWorld).saveCalls ∧
      (onEvent exStore ProcEvent.sigint (onEvent exStore ProcEvent.sigint exWorld)).exitCalls
        = (onEvent exStore ProcEvent.sigint exWorld).exitCalls) :=
  ⟨rfl, shutdown_guard_idempotent exStore ProcEvent.sigint ProcEvent.sigint exWorld rfl⟩

/-- C6: the handler passes `process.exit` status `0` for the termination
signals SIGINT and SIGTERM and status `1` for an uncaught exception or an
unhandled rejection, and in every case the exit call is recorded on the
world produced by a completed `saveProgress` invocation. -/
theorem termination_exit_codes (c : Store) (w : World) (m r : String)
    (h : w.isShuttingDown = false) :
    (onEvent c ProcEvent.sigint w).exitCalls = w.exitCalls ++ [0] ∧
    (onEvent c ProcEvent.sigterm w).exitCalls = w.exitCalls ++ [0] ∧
    (onEvent c (ProcEvent.uncaughtException m) w).exitCalls = w.exitCalls ++ [1] ∧
    (onEvent c (ProcEvent.unhandledRejection r) w).exitCalls = w.exitCalls ++ [1] ∧
    ∀ e : ProcEvent, ∃ w' : World, onEvent c e w =
      { saveProgress c w' with exitCalls := (saveProgress c w').exitCalls ++ [exitCodeOf e] } := by
  refine ⟨onEvent_exitCalls c ProcEvent.sigint w h,
          onEvent_exitCalls c ProcEvent.sigterm w h,
          onEvent_exitCalls c (ProcEvent.uncaughtException m) w h,
          onEvent_exitCalls c (ProcEvent.unhandledRejection r) w h, ?_⟩
  intro e
  cases e with
  | sigint =>
    exact ⟨logInfo { w with isShuttingDown := true }
        ("Process " ++ "interrupted (SIGINT)" ++ ". Saving progress..."),
      by simp [onEvent, handleExit, h, exitCodeOf]⟩
  | sigterm =>
    exact ⟨logInfo { w with isShuttingDown := true }
        ("Process " ++ "terminated (SIGTERM)" ++ ". Saving progress..."),
      by simp [onEvent, handleExit, h, exitCodeOf]⟩
  | uncaughtException m =>
    exact ⟨logInfo { logError w ("Uncaught exception: " ++ m) with isShuttingDown := true }
        ("Process " ++ "crashed with uncaught exception" ++ ". Saving progress..."),
      by simp [onEvent, handleExit, h, exitCodeOf, logError]⟩
  | unhandledRejection r =>
    exact ⟨logInfo { logError w ("Unhandled promise rejection: " ++ r) with isShuttingDown := true }
        ("Process " ++ "crashed with unhandled rejection" ++ ". Saving progress..."),
      by simp [onEvent, handleExit, h, exitCodeOf, logError]⟩

/-- Witness for C6: the four events delivered to a fresh coordinator. -/
theorem termination_exit_codes_witness :
    exWorld.isShuttingDown = false ∧
    (onEvent exStore ProcEvent.sigint exWorld).exitCalls = exWorld.exitCalls ++ [0] ∧
    (onEvent exStore ProcEvent.sigterm exWorld).exitCalls = exWorld.exitCalls ++ [0] ∧
    (onEvent exStore (ProcEvent.uncaughtException "boom") exWorld).exitCalls
      = exWorld.exitCalls ++ [1] ∧
    (onEvent exStore (ProcEvent.unhandledRejection "bust") exWorld).exitCalls
      = exWorld.exitCalls ++ [1] ∧
    ∀ e : ProcEvent, ∃ w' : World, onEvent exStore e exWorld =
      { saveProgress exStore w' with
          exitCalls := (saveProgress exStore w').exitCalls ++ [exitCodeOf e] } :=
  ⟨rfl, termination_exit_codes exStore exWorld "boom" "bust" rfl⟩

/-- C10: each crash handler calls `logger.error` with its cause before
invoking `handleExit`, so a crash notification arriving while the
coordinator is already shutting down still appends exactly its error
entry, while triggering no further save or exit (the world is otherwise
unchanged). -/
theorem crash_log_precedes_guard (c : Store) (w : World) (m r : String)
    (h : w.isShuttingDown = true) :
    onEvent c (ProcEvent.uncaughtException m) w = logError w ("Uncaught exception: " ++ m) ∧
    onEvent c (ProcEvent.unhandledRejection r) w
      = logError w ("Unhandled promise rejection: " ++ r) := by
  constructor
  · show handleExit c _ 1 (logError w _) = logError w _
    exact handleExit_of_shuttingDown c _ 1 _ (by simp [logError, h])
  · show handleExit c _ 1 (logError w _) = logError w _
    exact handleExit_of_shuttingDown c _ 1 _ (by simp [logError, h])

/-- Witness for C10: crash events delivered to a coordinator already in
the shutting-down state. -/
theorem crash_log_precedes_guard_witness :
    ({ exWorld with isShuttingDown := true } : World).isShuttingDown = true ∧
    (onEvent exStore (ProcEvent.uncaughtException "boom") { exWorld with isShuttingDown := true }
        = logError { exWorld with isShuttingDown := true } ("Uncaught exception: " ++ "boom") ∧
      onEvent exStore (ProcEvent.unhandledRejection "bust") { exWorld with isShuttingDown := true }
        = logError { exWorld with isShuttingDown := true }
            ("Unhandled promise rejection: " ++ "bust")) :=
  ⟨rfl, crash_log_precedes_guard exStore { exWorld with isShuttingDown := true } "boom" "bust" rfl⟩

/-! ## Claims about the checkpoint store -/

/-- C4: when the existence check succeeds and reports no file, `restore`
returns the configured initial data (`none` models the absent indicator
`undefined`) and leaves the world untouched — in particular no log entry
of any kind is emitted. -/
theorem restore_missing_file (c : Store) (w : World)
    (hstat : w.statError = false) (hfile : w.fs c.outputFile = none) :
    restore c w = (c.initialData, w) := by
  simp [restore, fsStatExists, hstat, hfile]

/-- Witness for C4: a cold start against the empty file system. -/
theorem restore_missing_file_witness :
    exWorld.statError = false ∧ exWorld.fs exStore.outputFile = none ∧
    restore exStore exWorld = (exStore.initialData, exWorld) :=
  ⟨rfl, rfl, restore_missing_file exStore exWorld rfl rfl⟩

/-- C3: when the file exists and is read back but its content fails to
deserialize, `restore` returns the configured initial data (or the absent
indicator) and appends exactly one log entry, an error one; the function
is total, modelling that the failure never propagates to the caller. -/
theorem restore_corrupt_falls_back (c : Store) (w : World) (s : String)
    (hstat : w.statError = false) (hread : w.readError = false)
    (hfile : w.fs c.outputFile = some s) (hbad : Json.parse s = none) :
    restore c w = (c.initialData, logError w "Error restoring progress") := by
  simp [restore, fsStatExists, fsReadFile, hstat, hread, hfile, hbad]

/-- Witness for C3: restoring the corrupt fixture falls back to the
initial data and logs one error. -/
theorem restore_corrupt_falls_back_witness :
    corruptWorld.statError = false ∧ corruptWorld.readError = false ∧
    corruptWorld.fs exStore.outputFile
      = some (String.mk (lbrace :: " this is not valid JSON ".data ++ [rbrace])) ∧
    Json.parse (String.mk (lbrace :: " this is not valid JSON ".data ++ [rbrace])) = none ∧
    restore exStore corruptWorld
      = (exStore.initialData, logError corruptWorld "Error restoring progress") :=
  ⟨rfl, rfl, rfl, rfl,
    restore_corrupt_falls_back exStore corruptWorld _ rfl rfl rfl rfl⟩

/-- C1: when the snapshot provider succeeds and the write goes through,
a subsequent `restore` against the same path returns a value structurally
equal to the saved snapshot — `saveProgress` writes
`JSON.stringify(getData(), null, 2)` to the path and `restore` parses the
same bytes back, and the codec pair is the identity on the snapshot. -/
theorem save_restore_roundtrip (c : Store) (w : World) (v : Json)
    (hget : c.getData = Except.ok v) (hwrite : w.writeError = false)
    (hstat : w.statError = false) (hread : w.readError = false) :
    (restore c (saveProgress c w)).1 = some v := by
  have hfs : (saveProgress c w).fs
      = fun p => if p = c.outputFile then some (Json.stringify v) else w.fs p := by
    simp [saveProgress, hget, logInfo, hwrite]
  have hse : (saveProgress c w).statError = w.statError := by
    simp [saveProgress, hget, logInfo, hwrite]
  have hre : (saveProgress c w).readError = w.readError := by
    simp [saveProgress, hget, logInfo, hwrite]
  simp [restore, fsStatExists, fsReadFile, hfs, hse, hre, hstat, hread,
    Json.parse_stringify]

/-- Witness for C1: the design's §8 fixture
`\x7b "items": [1, 2, 3], "value": "test" \x7d` round-trips end to end. -/
theorem save_restore_roundtrip_witness :
    roundStore.getData = Except.ok roundVal ∧ exWorld.writeError = false ∧
    exWorld.statError = false ∧ exWorld.readError = false ∧
    (restore roundStore (saveProgress roundStore exWorld)).1 = some roundVal :=
  ⟨rfl, rfl, rfl, rfl, save_restore_roundtrip roundStore exWorld roundVal rfl rfl rfl rfl⟩

/-- C5: when the snapshot provider succeeds but the write fails, the
`catch` in `saveProgress` absorbs it: the file system is untouched, the
log gains the attempt's info entry and exactly one error entry, and the
method completes; nothing besides the log reports the failure. -/
theorem save_write_failure_logged (c : Store) (w : World) (v : Json)
    (hget : c.getData = Except.ok v) (hwrite : w.writeError = true) :
    saveProgress c w = { w with
      saveCalls := w.saveCalls + 1
      log := w.log ++ [⟨LogLevel.info, "Saving progress to " ++ c.outputFile ++ "..."⟩,
                       ⟨LogLevel.error, "Error saving progress"⟩] } := by
  simp [saveProgress, hget, hwrite, logInfo, logError]

/-- Witness for C5: an unwritable path leaves the world's files unchanged
and logs one error. -/
theorem save_write_failure_logged_witness :
    exStore.getData = Except.ok (Json.num 7) ∧
    ({ exWorld with writeError := true } : World).writeError = true ∧
    saveProgress exStore { exWorld with writeError := true }
      = { ({ exWorld with writeError := true } : World) with
          saveCalls := ({ exWorld with writeError := true } : World).saveCalls + 1
          log := ({ exWorld with writeError := true } : World).log ++
            [⟨LogLevel.info, "Saving progress to " ++ exStore.outputFile ++ "..."⟩,
             ⟨LogLevel.error, "Error saving progress"⟩] } :=
  ⟨rfl, rfl, save_write_failure_logged exStore { exWorld with writeError := true }
    (Json.num 7) rfl rfl⟩

/-- C9: when the snapshot provider itself throws, the call happens inside
the `try` of `saveProgress`, so the error is caught and logged exactly as
a write failure is: the checkpoint file's prior contents are untouched
(nothing is written anywhere), the log gains the info entry and exactly
one error entry, and the method completes without throwing. -/
theorem save_provider_throw_logged (c : Store) (w : World) (msg : String)
    (hget : c.getData = Except.error msg) :
    saveProgress c w = { w with
      saveCalls := w.saveCalls + 1
      log := w.log ++ [⟨LogLevel.info, "Saving progress to " ++ c.outputFile ++ "..."⟩,
                       ⟨LogLevel.error, "Error saving progress"⟩] } := by
  simp [saveProgress, hget, logInfo, logError]

/-- Witness for C9: a throwing provider saves nothing and logs one error. -/
theorem save_provider_throw_logged_witness :
    ({ exStore with getData := Except.error "provider boom" } : Store).getData
      = Except.error "provider boom" ∧
    saveProgress { exStore with getData := Except.error "provider boom" } exWorld
      = { exWorld with
          saveCalls := exWorld.saveCalls + 1
          log := exWorld.log ++
            [⟨LogLevel.info, "Saving progress to "
              ++ ({ exStore with getData := Except.error "provider boom" } : Store).outputFile
              ++ "..."⟩,
             ⟨LogLevel.error, "Error saving progress"⟩] } :=
  ⟨rfl, save_provider_throw_logged { exStore with getData := Except.error "provider boom" }
    exWorld "provider boom" rfl⟩

/-- C8: `createWithRestore` returns the constructed store unchanged and
resolves to exactly the value a direct `restore` call on that store would
produce, with the same world effects; the `restoredData !== undefined`
fallback to `options.initialData` never changes the result, because the
only way `restore` yields the absent value is that no initial data was
configured. -/
theorem createWithRestore_matches_restore (opts : Store) (w : World) :
    createWithRestore opts w = ((opts, (restore opts w).1), (restore opts w).2) := by
  unfold createWithRestore
  dsimp only
  rcases h : (restore opts w).1 with _ | v
  · simpa [h] using restore_fst_none h
  · simp [h]

/-- Counterexample for C7 as stated: with the existence check failing
environmentally while the file itself is present and valid, `restore`
does return the configured initial data, but it emits no log entry at all
— in particular no error entry, contrary to the claim that the error is
logged.  The inline `.catch(() => false)` on `fs.stat` converts the
rejection to `false` before the `try`/`catch` that would log `Error
checking file existence` can observe it, so that handler is dead for stat
failures. -/
theorem restore_stat_failure_counterexample :
    (restore exStore statFailWorld).1 = exStore.initialData ∧
    (restore exStore statFailWorld).2.log = [] ∧
    ¬ ∃ e ∈ (restore exStore statFailWorld).2.log, e.level = LogLevel.error := by
  refine ⟨rfl, rfl, ?_⟩
  rintro ⟨e, he, -⟩
  have hlog : (restore exStore statFailWorld).2.log = [] := rfl
  rw [hlog] at he
  exact absurd he (List.not_mem_nil e)

/-- C7 amended: when the existence check fails for an environmental
reason, `restore` behaves exactly as if the file did not exist — it
returns the configured initial data (or the absent indicator) and leaves
the world unchanged, emitting no log entry. -/
theorem restore_stat_failure_silent_fallback (c : Store) (w : World)
    (h : w.statError = true) :
    restore c w = (c.initialData, w) := by
  simp [restore, fsStatExists, h]

/-- Witness for the amended C7. -/
theorem restore_stat_failure_silent_fallback_witness :
    statFailWorld.statError = true ∧
    restore exStore statFailWorld = (exStore.initialData, statFailWorld) :=
  ⟨rfl, restore_stat_failure_silent_fallback exStore statFailWorld rfl⟩

end CatsaJanga
